import Mathlib

/-!
Shallow embedding of `src/python-sdk/image_enhancer_sdk.py`
(PolishAi-Image-Enhancer), covering the request/response mediation layer:
the payload codec (base64 data URIs), the request mediator
(`enhance_image`, `classify_image`, `_admin_command`), the result decoder
(`save_enhanced_image`), the batch orchestrator (`batch_enhance`) and the
CLI batch tally from `main`.

Effects are made explicit: file reads, HTTP POST/GET calls and file writes
are passed in as outcome values, and each operation returns a trace
recording the URL it contacted (if any), the payload it sent and the
dictionary it returned.  Python exceptions raised by collaborators are
modelled as `exn` outcomes; the `try/except` blocks of the source map each
of them to an `error`-keyed dictionary.
-/

/-- JSON-like values, modelling the Python dicts the SDK builds and the
parsed bodies the server returns. -/
inductive JsonVal where
  | str : String → JsonVal
  | num : Nat → JsonVal
  | bool : Bool → JsonVal
  | null : JsonVal
  | obj : List (String × JsonVal) → JsonVal
  | arr : List JsonVal → JsonVal

/-- Field lookup in a JSON object body, first match wins (Python dicts have
unique keys, so this is exact on the dictionaries the SDK builds). -/
def fieldLookup (key : String) : List (String × JsonVal) → Option JsonVal
  | [] => none
  | (k, v) :: rest => if k = key then some v else fieldLookup key rest

/-- Models Python `key in result` / `result[key]` on a dict; non-dict values
have no fields. -/
def jlookup (key : String) : JsonVal → Option JsonVal
  | .obj fields => fieldLookup key fields
  | _ => none

/-- Models the error dictionary `{'error': msg}` the SDK returns on every
failure path. -/
def errDict (msg : String) : JsonVal := .obj [("error", .str msg)]

/-- Models `'error' in result`, the check `main` uses to classify a result
as a failure. -/
def hasError (v : JsonVal) : Bool := (jlookup "error" v).isSome

/-- Models Python `options or {}` (and `args or {}`): `None` becomes the
empty dict. -/
def orEmptyObj : Option JsonVal → JsonVal
  | none => .obj []
  | some v => v

/-- The standard base64 alphabet, as used by Python `base64.b64encode`. -/
def b64Chars : List Char :=
  "ABCDEFGHIJKLMNOPQRSTUVWXYZabcdefghijklmnopqrstuvwxyz0123456789+/".toList

/-- Character for a six-bit value. -/
def sextetChar (n : Nat) : Char := b64Chars.getD n 'A'

/-- Index of a character in the base64 alphabet, `none` if absent. -/
def sextetVal (c : Char) : Option Nat :=
  let i := b64Chars.indexOf c
  if i < 64 then some i else none

/-- Models `base64.b64encode` on a byte list: groups of three bytes become
four alphabet characters, with `=` padding for a final group of one or two
bytes. -/
def b64encodeChars : List Nat → List Char
  | [] => []
  | [a] => [sextetChar (a / 4), sextetChar (a % 4 * 16), '=', '=']
  | [a, b] => [sextetChar (a / 4), sextetChar (a % 4 * 16 + b / 16),
               sextetChar (b % 16 * 4), '=']
  | a :: b :: c :: rest =>
      sextetChar (a / 4) :: sextetChar (a % 4 * 16 + b / 16) ::
      sextetChar (b % 16 * 4 + c / 64) :: sextetChar (c % 64) ::
      b64encodeChars rest

/-- Models `base64.b64encode(...).decode('utf-8')`. -/
def b64encode (bytes : List Nat) : String := String.mk (b64encodeChars bytes)

/-- Models `base64.b64decode` on canonical input: four-character groups are
decoded to three bytes, a trailing `=`-padded group to one or two bytes;
any other shape raises, modelled as `none`. -/
def b64decodeList : List Char → Option (List Nat)
  | [] => some []
  | c1 :: c2 :: c3 :: c4 :: rest =>
    match sextetVal c1, sextetVal c2 with
    | some a, some b =>
      if c3 = '=' then
        if c4 = '=' ∧ rest = [] then some [a * 4 + b / 16] else none
      else
        match sextetVal c3 with
        | some c =>
          if c4 = '=' then
            if rest = [] then some [a * 4 + b / 16, b % 16 * 16 + c / 4]
            else none
          else
            match sextetVal c4, b64decodeList rest with
            | some d, some tl =>
                some ((a * 4 + b / 16) :: (b % 16 * 16 + c / 4) ::
                      (c % 4 * 64 + d) :: tl)
            | _, _ => none
        | none => none
    | _, _ => none
  | _ => none

/-- Models `base64.b64decode` applied to a string. -/
def b64decode (s : String) : Option (List Nat) := b64decodeList s.toList

/-- Models the data-URI construction of `enhance_image` lines 56-58:
`f"data:image/jpeg;base64,{image_data}"` for the base64 of the file bytes. -/
def encodeImage (bytes : List Nat) : String :=
  "data:image/jpeg;base64," ++ b64encode bytes

/-- Models Python `s.split(',', 1)` followed by two-way unpacking:
`some (head, tail)` around the first comma, `none` when there is no comma
(the unpacking then raises `ValueError`). -/
def splitCommaChars : List Char → Option (List Char × List Char)
  | [] => none
  | c :: rest =>
    if c = ',' then some ([], rest)
    else
      match splitCommaChars rest with
      | none => none
      | some (h, t) => some (c :: h, t)

/-- String version of `splitCommaChars`. -/
def splitFirstComma (s : String) : Option (String × String) :=
  match splitCommaChars s.toList with
  | none => none
  | some (h, t) => some (String.mk h, String.mk t)

/-- Boolean needle-in-front test on character lists. -/
def beginsWith : List Char → List Char → Bool
  | [], _ => true
  | _ :: _, [] => false
  | a :: as, b :: bs => a = b && beginsWith as bs

/-- Models `enhanced_url.startswith('data:')`. -/
def startsWithData (s : String) : Bool := beginsWith "data:".toList s.toList

/-- Models Python `str.rstrip('/')` on the reversed character list: drop
leading slashes. -/
def rstripSlashAux : List Char → List Char
  | [] => []
  | c :: rest => if c = '/' then rstripSlashAux rest else c :: rest

/-- Models `base_url.rstrip('/')` from `ImageEnhancerSDK.__init__`. -/
def rstripSlash (s : String) : String :=
  String.mk (rstripSlashAux s.toList.reverse).reverse

/-- True when the last character of the string is a slash. -/
def endsWithSlash (s : String) : Bool :=
  match s.toList.getLast? with
  | some c => c = '/'
  | none => false

/-- Outcome of `open(image_path, 'rb')` + `f.read()`: the raw bytes, or an
exception with description `msg`. -/
inductive ReadOutcome where
  | ok : List Nat → ReadOutcome
  | exn : String → ReadOutcome

/-- Outcome of `self.session.post(...)`: a response carrying a status code,
raw body text and the result of `response.json()` (`.error` when parsing
raises), or an exception (connection error, timeout, ...). -/
inductive PostOutcome where
  | response : Nat → String → Except String JsonVal → PostOutcome
  | exn : String → PostOutcome

/-- Outcome of `self.session.get(enhanced_url)`: a response carrying a
status code and raw content bytes, or an exception. -/
inductive GetOutcome where
  | response : Nat → List Nat → GetOutcome
  | exn : String → GetOutcome

/-- The stored configuration of an `ImageEnhancerSDK` instance. -/
structure SDKConfig where
  base_url : String
  admin_key : String

/-- Models `ImageEnhancerSDK.__init__`: strip trailing slashes from the
base URL; use the given admin key when it is truthy (a non-empty string),
else `os.getenv('ADMIN_KEY', 'dev-admin-key')` — the environment value
when set, else the hardcoded default. -/
def sdkInit (base_url : String) (admin_key : Option String)
    (envAdminKey : Option String) : SDKConfig :=
  { base_url := rstripSlash base_url
    admin_key :=
      match admin_key with
      | some k => if k = "" then envAdminKey.getD "dev-admin-key" else k
      | none => envAdminKey.getD "dev-admin-key" }

/-- Trace of one mediator operation: the URL posted to and the payload sent
(`none` when the operation failed before issuing the request), and the
dictionary returned to the caller. -/
structure CallTrace where
  url : Option String
  payload : Option JsonVal
  result : JsonVal

/-- Models `ImageEnhancerSDK.enhance_image` (lines 41-85): read and encode
the file, POST `{image, model, options}` to `{base_url}/api/enhance`, return
the parsed body on status 200, an `error` dict embedding status and body
text on any other status, and an `error` dict with the exception
description when anything raises. -/
def enhance_image (base_url : String) (read : ReadOutcome)
    (post : PostOutcome) (model : String) (options : Option JsonVal) :
    CallTrace :=
  match read with
  | .exn e => ⟨none, none, errDict ("Error enhancing image: " ++ e)⟩
  | .ok bytes =>
    let image_data_url := encodeImage bytes
    let payload := JsonVal.obj
      [("image", .str image_data_url), ("model", .str model),
       ("options", orEmptyObj options)]
    let url := base_url ++ "/api/enhance"
    match post with
    | .exn e => ⟨some url, some payload,
                 errDict ("Error enhancing image: " ++ e)⟩
    | .response status text json =>
      if status = 200 then
        match json with
        | .ok r => ⟨some url, some payload, r⟩
        | .error e => ⟨some url, some payload,
                       errDict ("Error enhancing image: " ++ e)⟩
      else
        ⟨some url, some payload,
         errDict ("Enhancement failed: " ++ toString status ++ " - " ++ text)⟩

/-- Models `ImageEnhancerSDK.classify_image` (lines 120-149): read and
encode the file, POST `{image}` to `{base_url}/api/classify`; on a non-200
status its error message embeds only the status code. -/
def classify_image (base_url : String) (read : ReadOutcome)
    (post : PostOutcome) : CallTrace :=
  match read with
  | .exn e => ⟨none, none, errDict ("Error classifying image: " ++ e)⟩
  | .ok bytes =>
    let image_data_url := encodeImage bytes
    let payload := JsonVal.obj [("image", .str image_data_url)]
    let url := base_url ++ "/api/classify"
    match post with
    | .exn e => ⟨some url, some payload,
                 errDict ("Error classifying image: " ++ e)⟩
    | .response status text json =>
      if status = 200 then
        match json with
        | .ok r => ⟨some url, some payload, r⟩
        | .error e => ⟨some url, some payload,
                       errDict ("Error classifying image: " ++ e)⟩
      else
        ⟨some url, some payload,
         errDict ("Classification failed: " ++ toString status)⟩

/-- Models `ImageEnhancerSDK._admin_command` (lines 193-214): POST
`{command, args, adminKey}` to `{base_url}/api/admin`; non-200 error messages
embed the status code and the body text. -/
def admin_command (base_url admin_key : String) (post : PostOutcome)
    (command : String) (args : Option JsonVal) : CallTrace :=
  let payload := JsonVal.obj
    [("command", .str command), ("args", orEmptyObj args),
     ("adminKey", .str admin_key)]
  let url := base_url ++ "/api/admin"
  match post with
  | .exn e => ⟨some url, some payload,
               errDict ("Error executing admin command: " ++ e)⟩
  | .response status text json =>
    if status = 200 then
      match json with
      | .ok r => ⟨some url, some payload, r⟩
      | .error e => ⟨some url, some payload,
                     errDict ("Error executing admin command: " ++ e)⟩
    else
      ⟨some url, some payload,
       errDict ("Admin command failed: " ++ toString status ++ " - " ++ text)⟩

/-- Trace of `save_enhanced_image`: the URL fetched with GET (`none` when no
GET was attempted), the bytes written to the output file (`none` when
nothing was written), and the returned boolean. -/
structure SaveTrace where
  getUrl : Option String
  written : Option (List Nat)
  ok : Bool

/-- Models `ImageEnhancerSDK.save_enhanced_image` (lines 216-254): fail when
`enhancedImage` is absent; for a `data:` value split on the first comma and
base64-decode the remainder; otherwise GET the URL, failing when the status
is not 200; write the bytes (the write raising is modelled by
`writeOk = false`); every raised exception yields `False`. -/
def save_enhanced_image (result : JsonVal) (get : GetOutcome)
    (writeOk : Bool) : SaveTrace :=
  match jlookup "enhancedImage" result with
  | none => ⟨none, none, false⟩
  | some v =>
    match v with
    | .str enhanced_url =>
      if startsWithData enhanced_url then
        match splitFirstComma enhanced_url with
        | none => ⟨none, none, false⟩
        | some (_, data) =>
          match b64decode data with
          | none => ⟨none, none, false⟩
          | some image_data =>
            if writeOk then ⟨none, some image_data, true⟩
            else ⟨none, none, false⟩
      else
        match get with
        | .exn _ => ⟨some enhanced_url, none, false⟩
        | .response status content =>
          if status ≠ 200 then ⟨some enhanced_url, none, false⟩
          else if writeOk then ⟨some enhanced_url, some content, true⟩
          else ⟨some enhanced_url, none, false⟩
    | _ => ⟨none, none, false⟩

/-- One entry of the list `batch_enhance` returns:
`{'image_path': image_path, 'result': result}`. -/
structure BatchItem where
  image_path : String
  result : JsonVal

/-- The loop of `batch_enhance` (lines 105-115): one item per path in input
order; the second component counts the `time.sleep(1)` calls, one after
every item except the last. -/
def batchGo (f : String → JsonVal) : List String → List BatchItem × Nat
  | [] => ([], 0)
  | [p] => ([⟨p, f p⟩], 0)
  | p :: q :: rest =>
      let r := batchGo f (q :: rest)
      (⟨p, f p⟩ :: r.1, r.2 + 1)

/-- Models `ImageEnhancerSDK.batch_enhance` (lines 87-118): sequentially
enhance each path (the environment `env` supplies each path's file-read and
POST outcomes); `max_concurrent` is a parameter of the source signature that
the body never reads. -/
def batch_enhance (base_url : String)
    (env : String → ReadOutcome × PostOutcome) (image_paths : List String)
    (model : String) (options : Option JsonVal) (max_concurrent : Nat) :
    List BatchItem × Nat :=
  batchGo
    (fun p => (enhance_image base_url (env p).1 (env p).2 model options).result)
    image_paths

/-- Models the tally loop of `main` (lines 342-351): count the items whose
result has no `error` key and for which `save_enhanced_image` returned
`True` (`save` abstracts that call at the item's output path). -/
def mainTally (save : BatchItem → Bool) (results : List BatchItem) : Nat :=
  results.foldl
    (fun successful item =>
      if hasError item.result then successful
      else if save item then successful + 1 else successful) 0

/-- Substring containment: `needle` occurs contiguously in `hay`.  Used to
state that an error message embeds a status code or a body text. -/
def strContains (hay needle : String) : Prop :=
  ∃ pre post : String, hay = pre ++ needle ++ post

/-! ## Helper lemmas -/

/-- Encoding a six-bit value and looking it up in the alphabet is the
identity. -/
theorem sextetVal_sextetChar : ∀ n, n < 64 → sextetVal (sextetChar n) = some n := by
  decide

/-- Alphabet characters are never the padding character. -/
theorem sextetChar_ne_pad : ∀ n, n < 64 → ¬ sextetChar n = '=' := by
  decide

/-- Round trip of the base64 character codec: decoding an encoding yields
the original bytes. -/
theorem b64_roundtrip : ∀ l : List Nat, (∀ b ∈ l, b < 256) →
    b64decodeList (b64encodeChars l) = some l
  | [], _ => rfl
  | [a], h => by
      have ha : a < 256 := h a (by simp)
      have h1 : a / 4 < 64 := by omega
      have h2 : a % 4 * 16 < 64 := by omega
      simp only [b64encodeChars, b64decodeList,
        sextetVal_sextetChar _ h1, sextetVal_sextetChar _ h2]
      simp
      omega
  | [a, b], h => by
      have ha : a < 256 := h a (by simp)
      have hb : b < 256 := h b (by simp)
      have h1 : a / 4 < 64 := by omega
      have h2 : a % 4 * 16 + b / 16 < 64 := by omega
      have h3 : b % 16 * 4 < 64 := by omega
      have hp3 : ¬ sextetChar (b % 16 * 4) = '=' := sextetChar_ne_pad _ h3
      simp only [b64encodeChars, b64decodeList,
        sextetVal_sextetChar _ h1, sextetVal_sextetChar _ h2,
        sextetVal_sextetChar _ h3]
      simp [hp3]
      omega
  | a :: b :: c :: rest, h => by
      have ha : a < 256 := h a (by simp)
      have hb : b < 256 := h b (by simp)
      have hc : c < 256 := h c (by simp)
      have ih : b64decodeList (b64encodeChars rest) = some rest :=
        b64_roundtrip rest (fun x hx => h x (by simp [hx]))
      have h1 : a / 4 < 64 := by omega
      have h2 : a % 4 * 16 + b / 16 < 64 := by omega
      have h3 : b % 16 * 4 + c / 64 < 64 := by omega
      have h4 : c % 64 < 64 := by omega
      have hp3 : ¬ sextetChar (b % 16 * 4 + c / 64) = '=' := sextetChar_ne_pad _ h3
      have hp4 : ¬ sextetChar (c % 64) = '=' := sextetChar_ne_pad _ h4
      simp only [b64encodeChars, b64decodeList,
        sextetVal_sextetChar _ h1, sextetVal_sextetChar _ h2,
        sextetVal_sextetChar _ h3, sextetVal_sextetChar _ h4, ih]
      simp [hp3, hp4]
      omega

/-- Splitting on the first comma undoes prepending a comma-free head. -/
theorem splitCommaChars_append : ∀ (h : List Char), ',' ∉ h → ∀ t,
    splitCommaChars (h ++ ',' :: t) = some (h, t)
  | [], _, t => by simp [splitCommaChars]
  | c :: rest, hh, t => by
      have hc : ¬ c = ',' := fun e => hh (by simp [e])
      have ih := splitCommaChars_append rest (fun m => hh (List.mem_cons_of_mem _ m)) t
      simp [splitCommaChars, hc, ih]

/-- The data URI built by the mediator splits at the first comma into the
fixed header and the base64 payload. -/
theorem splitFirstComma_encodeImage (bytes : List Nat) :
    splitFirstComma (encodeImage bytes)
      = some ("data:image/jpeg;base64", b64encode bytes) := by
  have hnc : ',' ∉ "data:image/jpeg;base64".toList := by decide
  have hdata : (encodeImage bytes).toList
      = "data:image/jpeg;base64".toList ++ ',' :: (b64encode bytes).toList := by
    show ("data:image/jpeg;base64," ++ b64encode bytes).data
        = "data:image/jpeg;base64".data ++ ',' :: (b64encode bytes).data
    rw [String.data_append]
    show ("data:image/jpeg;base64".data ++ [',']) ++ (b64encode bytes).data = _
    rw [List.append_assoc]
    rfl
  simp only [splitFirstComma, hdata, splitCommaChars_append _ hnc]
  rfl

/-- A substring is never longer than the string containing it. -/
theorem strContains_length {hay needle : String} (h : strContains hay needle) :
    needle.length ≤ hay.length := by
  obtain ⟨p, q, rfl⟩ := h
  simp only [String.length_append]
  omega

/-- The head of a slash-stripped character list is never a slash. -/
theorem rstripSlashAux_head : ∀ (l : List Char) (c : Char),
    (rstripSlashAux l).head? = some c → ¬ c = '/'
  | [], c => by simp [rstripSlashAux]
  | x :: rest, c => by
      by_cases hx : x = '/'
      · simp only [rstripSlashAux, if_pos hx]
        exact rstripSlashAux_head rest c
      · simp only [rstripSlashAux, if_neg hx, List.head?_cons]
        intro h
        obtain rfl : x = c := by injection h
        exact hx

/-- After `rstrip('/')` no trailing slash remains. -/
theorem endsWithSlash_rstripSlash (s : String) :
    endsWithSlash (rstripSlash s) = false := by
  unfold endsWithSlash rstripSlash
  rw [show (String.mk (rstripSlashAux s.toList.reverse).reverse).toList
        = (rstripSlashAux s.toList.reverse).reverse from rfl]
  rw [List.getLast?_reverse]
  cases hh : (rstripSlashAux s.toList.reverse).head? with
  | none => rfl
  | some c =>
      have hc := rstripSlashAux_head _ _ hh
      simp [hc]

/-- Appending a trailing slash does not change the stripped base URL. -/
theorem rstripSlash_append_slash (s : String) :
    rstripSlash (s ++ "/") = rstripSlash s := by
  unfold rstripSlash
  have h : (s ++ "/").toList.reverse = '/' :: s.toList.reverse := by
    have h0 : (s ++ "/").data = s.data ++ ['/'] := String.data_append s "/"
    show (s ++ "/").data.reverse = _
    rw [h0]
    simp
  rw [h]
  simp [rstripSlashAux]

/-- Counting a predicate and its negation accounts for every element. -/
theorem countP_not_add {α : Type} (p : α → Bool) :
    ∀ l : List α, l.countP p + l.countP (fun a => !p a) = l.length
  | [] => rfl
  | x :: l => by
      have ih := countP_not_add p l
      cases hx : p x <;> simp [List.countP_cons, hx] <;> omega

/-- Closed form of the `batch_enhance` loop: the items are the input paths
in order, each paired with its result, and the sleep count is one less than
the input length (zero for an empty input). -/
theorem batchGo_eq (f : String → JsonVal) : ∀ paths : List String,
    batchGo f paths
      = (paths.map (fun p => ⟨p, f p⟩), paths.length - 1)
  | [] => rfl
  | [p] => rfl
  | p :: q :: rest => by
      have ih := batchGo_eq f (q :: rest)
      simp [batchGo, ih]

/-- The tally fold of `main`, with an arbitrary accumulator. -/
theorem mainTally_foldl (save : BatchItem → Bool) :
    ∀ (l : List BatchItem) (n : Nat),
      List.foldl (fun successful item =>
        if hasError item.result then successful
        else if save item then successful + 1 else successful) n l
      = n + l.countP (fun it => !hasError it.result && save it)
  | [], n => by simp
  | x :: l, n => by
      have ih := mainTally_foldl save l
      cases hx : hasError x.result <;> cases hs : save x <;>
        simp [List.countP_cons, hx, hs, ih] <;> omega

/-- The tally `main` reports counts exactly the items whose result has no
`error` key and whose save succeeded. -/
theorem mainTally_eq_countP (save : BatchItem → Bool) (l : List BatchItem) :
    mainTally save l = l.countP (fun it => !hasError it.result && save it) := by
  unfold mainTally
  rw [mainTally_foldl save l 0]
  omega

/-! ## Claim theorems -/

/-- C2: encoding file bytes as the data URI (as `enhance_image` does) and
then stripping the prefix up to the first comma and base64-decoding the
remainder (as `save_enhanced_image` does) reproduces the original bytes;
in particular the bytes FF D8 FF encode exactly to
"data:image/jpeg;base64,/9j/". -/
theorem C2_encode_decode_roundtrip (bytes : List Nat)
    (h : ∀ b ∈ bytes, b < 256) :
    (match splitFirstComma (encodeImage bytes) with
     | some (_, data) => b64decode data
     | none => none) = some bytes ∧
    encodeImage [255, 216, 255] = "data:image/jpeg;base64,/9j/" := by
  constructor
  · rw [splitFirstComma_encodeImage]
    exact b64_roundtrip bytes h
  · decide

/-- Witness for C2 at the scenario input bytes FF D8 FF. -/
theorem C2_encode_decode_roundtrip_witness :
    (∀ b ∈ [255, 216, 255], b < 256) ∧
    (match splitFirstComma (encodeImage [255, 216, 255]) with
     | some (_, data) => b64decode data
     | none => none) = some [255, 216, 255] :=
  ⟨by decide, (C2_encode_decode_roundtrip [255, 216, 255] (by decide)).1⟩

/-- C4: when the result payload has no enhancedImage field,
save_enhanced_image returns False and attempts no GET request. -/
theorem C4_missing_field_fails (result : JsonVal) (get : GetOutcome)
    (writeOk : Bool) (h : jlookup "enhancedImage" result = none) :
    (save_enhanced_image result get writeOk).ok = false ∧
    (save_enhanced_image result get writeOk).getUrl = none := by
  unfold save_enhanced_image
  rw [h]
  exact ⟨rfl, rfl⟩

/-- Witness for C4 at a payload with only an unrelated field. -/
theorem C4_missing_field_fails_witness :
    jlookup "enhancedImage" (JsonVal.obj [("foo", .num 1)]) = none ∧
    (save_enhanced_image (JsonVal.obj [("foo", .num 1)]) (.exn "net") true).ok
      = false ∧
    (save_enhanced_image (JsonVal.obj [("foo", .num 1)]) (.exn "net") true).getUrl
      = none :=
  ⟨rfl,
   (C4_missing_field_fails (JsonVal.obj [("foo", .num 1)]) (.exn "net") true rfl).1,
   (C4_missing_field_fails (JsonVal.obj [("foo", .num 1)]) (.exn "net") true rfl).2⟩

/-- C6: batch_enhance yields one BatchItem per input path, capturing that
path and its enhance result, preserving input order, and performs exactly
length - 1 one-second sleeps (which is max(N-1, 0) under Nat subtraction,
so zero for an empty input). -/
theorem C6_batch_items_and_sleeps (base model : String)
    (options : Option JsonVal) (mc : Nat)
    (env : String → ReadOutcome × PostOutcome) (paths : List String) :
    batch_enhance base env paths model options mc
      = (paths.map (fun p =>
           ⟨p, (enhance_image base (env p).1 (env p).2 model options).result⟩),
         paths.length - 1) := by
  unfold batch_enhance
  exact batchGo_eq _ paths

/-- C8: the max_concurrent parameter has no influence on batch_enhance; any
two values yield identical outputs of the same sequential run. -/
theorem C8_max_concurrent_unused (base model : String)
    (options : Option JsonVal) (env : String → ReadOutcome × PostOutcome)
    (paths : List String) (m1 m2 : Nat) :
    batch_enhance base env paths model options m1
      = batch_enhance base env paths model options m2 := rfl

/-- C1 (amended): on any non-200 response, enhance_image and _admin_command
return an error dictionary whose message embeds both the status code and
the raw body text; classify_image also returns an error dictionary, but
its message embeds the status code only; none of the three returns the
parsed success payload for such a response. -/
theorem C1_non200_failure (base model cmd akey : String)
    (opts args : Option JsonVal) (bytes : List Nat) (status : Nat)
    (text : String) (j : Except String JsonVal) (hs : status ≠ 200) :
    (∃ m, (enhance_image base (.ok bytes) (.response status text j) model
            opts).result = errDict m
      ∧ strContains m (toString status) ∧ strContains m text) ∧
    (∃ m, (classify_image base (.ok bytes) (.response status text j)).result
        = errDict m ∧ strContains m (toString status)) ∧
    (∃ m, (admin_command base akey (.response status text j) cmd args).result
        = errDict m ∧ strContains m (toString status) ∧ strContains m text) := by
  have henh : (enhance_image base (.ok bytes) (.response status text j) model
      opts).result
      = errDict ("Enhancement failed: " ++ toString status ++ " - " ++ text) := by
    simp [enhance_image, hs]
  have hcls : (classify_image base (.ok bytes) (.response status text j)).result
      = errDict ("Classification failed: " ++ toString status) := by
    simp [classify_image, hs]
  have hadm : (admin_command base akey (.response status text j) cmd args).result
      = errDict ("Admin command failed: " ++ toString status ++ " - " ++ text) := by
    simp [admin_command, hs]
  refine ⟨⟨_, henh, ⟨"Enhancement failed: ", " - " ++ text,
            String.append_assoc _ _ _⟩,
          ⟨"Enhancement failed: " ++ toString status ++ " - ", "",
            by rw [String.append_empty]⟩⟩,
         ⟨_, hcls, ⟨"Classification failed: ", "",
            by rw [String.append_empty]⟩⟩,
         ⟨_, hadm, ⟨"Admin command failed: ", " - " ++ text,
            String.append_assoc _ _ _⟩,
          ⟨"Admin command failed: " ++ toString status ++ " - ", "",
            by rw [String.append_empty]⟩⟩⟩

/-- Witness for C1 (amended) at a concrete 500 response. -/
theorem C1_non200_failure_witness :
    (500 : Nat) ≠ 200 ∧
    (∃ m, (enhance_image "b" (.ok [1]) (.response 500 "boom" (.ok .null)) "m"
            none).result = errDict m
      ∧ strContains m (toString 500) ∧ strContains m "boom") :=
  ⟨by decide,
   (C1_non200_failure "b" "m" "c" "k" none none [1] 500 "boom" (.ok .null)
      (by decide)).1⟩

/-- C1 fails as stated: classify_image's non-200 failure message embeds only
the status code, not the raw body text; with a 48-character body the
26-character message cannot contain it. -/
theorem C1_counterexample :
    (classify_image "http://h" (.ok [1])
        (.response 500 "responsebodytextresponsebodytextresponsebodytext"
          (.ok (.obj [])))).result
      = errDict "Classification failed: 500" ∧
    ¬ strContains "Classification failed: 500"
        "responsebodytextresponsebodytextresponsebodytext" := by
  constructor
  · rfl
  · intro h
    have hlen := strContains_length h
    have h1 : ("responsebodytextresponsebodytextresponsebodytext" :
        String).length = 48 := rfl
    have h2 : ("Classification failed: 500" : String).length = 26 := rfl
    omega

/-- C5: every internal fault — file-read exception, transport exception on
POST, JSON parse failure of the response body — is returned by each
mediator operation as an error dictionary; the embedded operations are
total functions into result values, so no exception propagates to the
caller. -/
theorem C5_faults_returned_as_data (base model cmd akey : String)
    (opts args : Option JsonVal) (bytes : List Nat) (e pe : String)
    (status : Nat) (text : String) (post : PostOutcome) :
    ((enhance_image base (.exn e) post model opts).result
        = errDict ("Error enhancing image: " ++ e)) ∧
    ((enhance_image base (.ok bytes) (.exn e) model opts).result
        = errDict ("Error enhancing image: " ++ e)) ∧
    (∃ m, (enhance_image base (.ok bytes)
        (.response status text (.error pe)) model opts).result = errDict m) ∧
    ((classify_image base (.exn e) post).result
        = errDict ("Error classifying image: " ++ e)) ∧
    ((classify_image base (.ok bytes) (.exn e)).result
        = errDict ("Error classifying image: " ++ e)) ∧
    (∃ m, (classify_image base (.ok bytes)
        (.response status text (.error pe))).result = errDict m) ∧
    ((admin_command base akey (.exn e) cmd args).result
        = errDict ("Error executing admin command: " ++ e)) ∧
    (∃ m, (admin_command base akey (.response status text (.error pe)) cmd
        args).result = errDict m) := by
  refine ⟨rfl, rfl, ?_, rfl, rfl, ?_, rfl, ?_⟩
  · by_cases h200 : status = 200
    · exact ⟨"Error enhancing image: " ++ pe, by simp [enhance_image, h200]⟩
    · exact ⟨"Enhancement failed: " ++ toString status ++ " - " ++ text,
        by simp [enhance_image, h200]⟩
  · by_cases h200 : status = 200
    · exact ⟨"Error classifying image: " ++ pe, by simp [classify_image, h200]⟩
    · exact ⟨"Classification failed: " ++ toString status,
        by simp [classify_image, h200]⟩
  · by_cases h200 : status = 200
    · exact ⟨"Error executing admin command: " ++ pe,
        by simp [admin_command, h200]⟩
    · exact ⟨"Admin command failed: " ++ toString status ++ " - " ++ text,
        by simp [admin_command, h200]⟩

/-- C7: when enhancedImage is present: a data: value is split at the first
comma and its remainder base64-decoded into the written bytes with no GET
performed; any other value is fetched with a GET to that URL, and a non-200
GET status makes the call return False. -/
theorem C7_decode_result_branches (result : JsonVal) (v : String)
    (get : GetOutcome) (writeOk : Bool)
    (hv : jlookup "enhancedImage" result = some (.str v)) :
    (startsWithData v = true →
      (save_enhanced_image result get writeOk).getUrl = none ∧
      (∀ hdr data bs, splitFirstComma v = some (hdr, data) →
        b64decode data = some bs → writeOk = true →
        (save_enhanced_image result get writeOk).written = some bs ∧
        (save_enhanced_image result get writeOk).ok = true)) ∧
    (startsWithData v = false →
      (save_enhanced_image result get writeOk).getUrl = some v ∧
      (∀ status content, get = .response status content → status ≠ 200 →
        (save_enhanced_image result get writeOk).ok = false)) := by
  constructor
  · intro hd
    constructor
    · unfold save_enhanced_image
      rw [hv]
      simp only [hd, if_true]
      cases hsp : splitFirstComma v with
      | none => rfl
      | some p =>
        obtain ⟨hdr, data⟩ := p
        cases hb : b64decode data with
        | none => simp [hb]
        | some bs => cases writeOk <;> simp [hb]
    · intro hdr data bs hsp hb hw
      unfold save_enhanced_image
      rw [hv]
      simp [hd, hsp, hb, hw]
  · intro hd
    constructor
    · unfold save_enhanced_image
      rw [hv]
      simp only [hd, Bool.false_eq_true, if_false]
      cases get with
      | exn e => rfl
      | response status content =>
        by_cases h200 : status ≠ 200
        · simp [h200]
        · cases writeOk <;> simp [h200]
    · intro status content hg h200
      subst hg
      unfold save_enhanced_image
      rw [hv]
      simp only [hd, Bool.false_eq_true, if_false]
      simp [h200]

/-- Witness for C7 at a concrete data: URI whose payload decodes to one
byte. -/
theorem C7_decode_result_branches_witness :
    jlookup "enhancedImage"
        (JsonVal.obj [("enhancedImage", .str "data:x,AQ==")])
      = some (.str "data:x,AQ==") ∧
    (save_enhanced_image (JsonVal.obj [("enhancedImage", .str "data:x,AQ==")])
        (.exn "unused") true).getUrl = none ∧
    (save_enhanced_image (JsonVal.obj [("enhancedImage", .str "data:x,AQ==")])
        (.exn "unused") true).written = some [1] ∧
    (save_enhanced_image (JsonVal.obj [("enhancedImage", .str "data:x,AQ==")])
        (.exn "unused") true).ok = true := by
  have h := C7_decode_result_branches
    (JsonVal.obj [("enhancedImage", .str "data:x,AQ==")]) "data:x,AQ=="
    (.exn "unused") true rfl
  exact ⟨rfl, (h.1 rfl).1,
    ((h.1 rfl).2 "data:x" "AQ==" [1] rfl rfl rfl).1,
    ((h.1 rfl).2 "data:x" "AQ==" [1] rfl rfl rfl).2⟩

/-- Whenever enhance_image issues a POST, the URL is the base followed by
the fixed enhance path. -/
theorem enhance_url_shape (base : String) (read : ReadOutcome)
    (post : PostOutcome) (model : String) (opts : Option JsonVal) :
    (enhance_image base read post model opts).url = none ∨
    (enhance_image base read post model opts).url
      = some (base ++ "/api/enhance") := by
  cases read with
  | exn e => exact Or.inl rfl
  | ok bytes =>
    cases post with
    | exn e => exact Or.inr rfl
    | response st txt j =>
      by_cases h200 : st = 200
      · cases j with
        | ok r => right; simp [enhance_image, h200]
        | error pe => right; simp [enhance_image, h200]
      · right; simp [enhance_image, h200]

/-- Whenever classify_image issues a POST, the URL is the base followed by
the fixed classify path. -/
theorem classify_url_shape (base : String) (read : ReadOutcome)
    (post : PostOutcome) :
    (classify_image base read post).url = none ∨
    (classify_image base read post).url = some (base ++ "/api/classify") := by
  cases read with
  | exn e => exact Or.inl rfl
  | ok bytes =>
    cases post with
    | exn e => exact Or.inr rfl
    | response st txt j =>
      by_cases h200 : st = 200
      · cases j with
        | ok r => right; simp [classify_image, h200]
        | error pe => right; simp [classify_image, h200]
      · right; simp [classify_image, h200]

/-- The admin command always posts to the base followed by the fixed admin
path. -/
theorem admin_url_shape (base akey : String) (post : PostOutcome)
    (cmd : String) (args : Option JsonVal) :
    (admin_command base akey post cmd args).url = some (base ++ "/api/admin") := by
  cases post with
  | exn e => rfl
  | response st txt j =>
    by_cases h200 : st = 200
    · cases j with
      | ok r => simp [admin_command, h200]
      | error pe => simp [admin_command, h200]
    · simp [admin_command, h200]

/-- C9: the stored base URL has every trailing slash removed, so each
request URL an operation forms is the stored base followed by exactly one
slash before the api path; and a raw base with a trailing slash stores the
same base as one without, hence yields identical request URLs. -/
theorem C9_base_url_normalization (raw : String) (ak envk : Option String)
    (read : ReadOutcome) (post : PostOutcome) (model cmd : String)
    (opts args : Option JsonVal) :
    endsWithSlash (sdkInit raw ak envk).base_url = false ∧
    (∀ u, (enhance_image (sdkInit raw ak envk).base_url read post model
        opts).url = some u →
      u = (sdkInit raw ak envk).base_url ++ "/api/enhance") ∧
    (∀ u, (classify_image (sdkInit raw ak envk).base_url read post).url
        = some u →
      u = (sdkInit raw ak envk).base_url ++ "/api/classify") ∧
    (∀ u, (admin_command (sdkInit raw ak envk).base_url
        (sdkInit raw ak envk).admin_key post cmd args).url = some u →
      u = (sdkInit raw ak envk).base_url ++ "/api/admin") ∧
    (sdkInit (raw ++ "/") ak envk).base_url
      = (sdkInit raw ak envk).base_url := by
  refine ⟨endsWithSlash_rstripSlash raw, ?_, ?_, ?_, rstripSlash_append_slash raw⟩
  · intro u hu
    rcases enhance_url_shape (sdkInit raw ak envk).base_url read post model
        opts with h | h
    · rw [h] at hu; cases hu
    · rw [h] at hu; injection hu with hh; exact hh.symm
  · intro u hu
    rcases classify_url_shape (sdkInit raw ak envk).base_url read post
        with h | h
    · rw [h] at hu; cases hu
    · rw [h] at hu; injection hu with hh; exact hh.symm
  · intro u hu
    rw [admin_url_shape] at hu
    injection hu with hh
    exact hh.symm

/-- Witness for C9: with and without a trailing slash the enhance request
URL is the same concrete URL. -/
theorem C9_base_url_normalization_witness :
    ("http://host/api/enhance" : String)
      = (sdkInit "http://host/" none none).base_url ++ "/api/enhance" :=
  (C9_base_url_normalization "http://host/" none none (.ok [1]) (.exn "down")
      "m" "c" none none).2.1 "http://host/api/enhance" rfl

/-- C10: a falsy explicit admin key (the empty string, or None) is ignored
in favour of the ADMIN_KEY environment value or, failing that, the
hardcoded default dev-admin-key; a non-empty explicit key is stored as
given, and the stored key is exactly what every admin payload carries in
its adminKey field. -/
theorem C10_admin_key_fallback (b : String) (envk : Option String)
    (k : String) (post : PostOutcome) (cmd : String) (args : Option JsonVal)
    (hk : k ≠ "") :
    ((sdkInit b (some "") envk).admin_key = envk.getD "dev-admin-key") ∧
    ((sdkInit b none envk).admin_key = envk.getD "dev-admin-key") ∧
    ((sdkInit b (some k) envk).admin_key = k) ∧
    (∀ akey, jlookup "adminKey"
        ((admin_command b akey post cmd args).payload.getD .null)
      = some (.str akey)) := by
  refine ⟨by simp [sdkInit], by simp [sdkInit], by simp [sdkInit, hk], ?_⟩
  intro akey
  cases post with
  | exn e => rfl
  | response st txt j =>
    by_cases h200 : st = 200
    · cases j with
      | ok r => simp only [admin_command, if_pos h200]; rfl
      | error pe => simp only [admin_command, if_pos h200]; rfl
    · simp only [admin_command, if_neg h200]; rfl

/-- Witness for C10 with a non-empty explicit key. -/
theorem C10_admin_key_fallback_witness :
    ("secret" : String) ≠ "" ∧
    (sdkInit "b" (some "secret") (some "envkey")).admin_key = "secret" :=
  ⟨by decide,
   (C10_admin_key_fallback "b" (some "envkey") "secret" (.exn "x") "status"
      none (by decide)).2.2.1⟩

/-- Projecting the path out of the constructed batch items recovers the
input paths. -/
theorem map_image_path (f : String → JsonVal) : ∀ l : List String,
    (l.map (fun p => (⟨p, f p⟩ : BatchItem))).map BatchItem.image_path = l
  | [] => rfl
  | p :: rest => by simp [map_image_path f rest]

/-- C3 (amended): batch_enhance returns exactly N items in original input
order, of which exactly K are Failure entries; the orchestrator's final
reported tally counts, out of N, the items whose result is not a Failure
AND whose save_enhanced_image call succeeds — it equals that count, is at
most N - K, and equals N - K exactly when every non-failing item also
saves successfully. -/
theorem C3_batch_length_failures_tally (base model : String)
    (opts : Option JsonVal) (mc : Nat)
    (env : String → ReadOutcome × PostOutcome) (paths : List String)
    (save : BatchItem → Bool) (N K : Nat)
    (hN : paths.length = N)
    (hK : ((batch_enhance base env paths model opts mc).1.countP
            (fun it => hasError it.result)) = K) :
    ((batch_enhance base env paths model opts mc).1.length = N) ∧
    ((batch_enhance base env paths model opts mc).1.map BatchItem.image_path
       = paths) ∧
    (mainTally save (batch_enhance base env paths model opts mc).1
       = (batch_enhance base env paths model opts mc).1.countP
           (fun it => !hasError it.result && save it)) ∧
    (mainTally save (batch_enhance base env paths model opts mc).1 ≤ N - K) ∧
    ((∀ it ∈ (batch_enhance base env paths model opts mc).1,
        hasError it.result = false → save it = true) →
      mainTally save (batch_enhance base env paths model opts mc).1
        = N - K) := by
  set l := (batch_enhance base env paths model opts mc).1 with hl
  have hlen : l.length = N := by
    rw [hl]
    unfold batch_enhance
    rw [batchGo_eq]
    simp [hN]
  have hmap : l.map BatchItem.image_path = paths := by
    rw [hl]
    unfold batch_enhance
    rw [batchGo_eq]
    exact map_image_path _ paths
  have htc := mainTally_eq_countP save l
  have hsum : l.countP (fun it => hasError it.result)
      + l.countP (fun it => !hasError it.result) = l.length := by
    have h0 := countP_not_add (fun it => hasError it.result) l
    simpa using h0
  have hmono : l.countP (fun it => !hasError it.result && save it)
      ≤ l.countP (fun it => !hasError it.result) :=
    List.countP_mono_left (fun a _ h => by
      simp only [Bool.and_eq_true] at h
      exact h.1)
  refine ⟨hlen, hmap, htc, by omega, ?_⟩
  intro hall
  have heq : l.countP (fun it => !hasError it.result && save it)
      = l.countP (fun it => !hasError it.result) :=
    List.countP_congr (fun a ha => by
      constructor
      · intro h
        simp only [Bool.and_eq_true] at h
        exact h.1
      · intro h
        simp only [Bool.and_eq_true]
        refine ⟨h, ?_⟩
        refine hall a ha ?_
        simpa using h)
  omega

/-- Witness for C3 (amended) on a one-element batch whose single enhance
fails with a file-read error. -/
theorem C3_batch_length_failures_tally_witness :
    (["a"] : List String).length = 1 ∧
    ((batch_enhance "b" (fun _ => (.exn "io", .exn "net")) ["a"] "m" none
        3).1.countP (fun it => hasError it.result)) = 1 ∧
    mainTally (fun _ => true)
      (batch_enhance "b" (fun _ => (.exn "io", .exn "net")) ["a"] "m" none
        3).1 ≤ 1 - 1 :=
  ⟨rfl, rfl,
   (C3_batch_length_failures_tally "b" "m" none 3
      (fun _ => (.exn "io", .exn "net")) ["a"] (fun _ => true) 1 1 rfl
      rfl).2.2.2.1⟩

/-- C3 fails as stated: one path whose enhancement succeeds (status 200,
payload without an error key) gives N = 1 and K = 0 failures, yet the
reported tally is 0, not N - K = 1, because the payload lacks
enhancedImage and so save_enhanced_image returns False. -/
theorem C3_counterexample :
    ((batch_enhance "b" (fun _ => (.ok [1], .response 200 "" (.ok (.obj []))))
        ["a.jpg"] "m" none 3).1.length = 1) ∧
    ((batch_enhance "b" (fun _ => (.ok [1], .response 200 "" (.ok (.obj []))))
        ["a.jpg"] "m" none 3).1.countP (fun it => hasError it.result) = 0) ∧
    (mainTally
      (fun it => (save_enhanced_image it.result (.exn "unused") true).ok)
      (batch_enhance "b" (fun _ => (.ok [1], .response 200 "" (.ok (.obj []))))
        ["a.jpg"] "m" none 3).1 = 0) ∧
    (0 : Nat) ≠ 1 - 0 :=
  ⟨rfl, rfl, rfl, by decide⟩
